import Mathlib

/-!
Verification of the credential manager in scripts/credential_manager.py
(class CredentialManager). Text is modelled as List Char, the shape of a
Python str. Python dicts built by repeated item assignment are modelled as
insertion-ordered association lists with in-place update, mirroring CPython
dict semantics. Fallible filesystem interaction is modelled by explicit
Option-valued state passed in and returned.
-/

namespace CredMgr

/-- Whitespace set of Python str.strip(): space, tab, newline, carriage
return, vertical tab, form feed. -/
def isPySpace (c : Char) : Bool :=
  c = ' ' || c = '\t' || c = '\n' || c = '\r' || c = '\x0b' || c = '\x0c'

/-- Python str.strip(): drop leading and trailing whitespace. -/
def pyStrip (s : List Char) : List Char :=
  ((s.dropWhile isPySpace).reverse.dropWhile isPySpace).reverse

/-- Split text into lines at newline characters, as iterating a Python text
file does (the iterator keeps each trailing newline, which the subsequent
strip removes, so splitting at newlines is observationally the same). -/
def splitLinesAux : List Char → List Char → List (List Char)
  | [], acc => [acc.reverse]
  | c :: rest, acc =>
    if c = '\n' then acc.reverse :: splitLinesAux rest []
    else splitLinesAux rest (c :: acc)

/-- Line splitting of a whole text. -/
def splitLines (s : List Char) : List (List Char) :=
  splitLinesAux s []

/-- Python line.split(sep, 1) for a one-character separator: the segments
before and after the first occurrence of the equals sign; none models the
no-occurrence case, in which load_credentials skips the line. -/
def splitFirstEq : List Char → Option (List Char × List Char)
  | [] => none
  | c :: rest =>
    if c = '=' then some ([], rest)
    else (splitFirstEq rest).map fun p => (c :: p.1, p.2)

/-- Python dict item assignment d[k] = v on an insertion-ordered
association list: update in place if the key is present, else append. -/
def dictInsert {α β : Type} [DecidableEq α] (m : List (α × β)) (k : α) (v : β) :
    List (α × β) :=
  if m.any fun p => decide (p.1 = k) then
    m.map fun p => if p.1 = k then (k, v) else p
  else m ++ [(k, v)]

/-- Python membership test and subscript read on such a dict. -/
def dictFind {α β : Type} [DecidableEq α] (m : List (α × β)) (k : α) : Option β :=
  (m.find? fun p => decide (p.1 = k)).map Prod.snd

/-- One iteration of the parsing loop in load_credentials: strip the line,
skip it when blank or starting with a hash mark, otherwise split at the
first equals sign, strip key and value and assign into the dict. -/
def parseLine (m : List (List Char × List Char)) (rawLine : List Char) :
    List (List Char × List Char) :=
  let line := pyStrip rawLine
  if line = [] then m
  else if line.head? = some '#' then m
  else
    match splitFirstEq line with
    | none => m
    | some kv => dictInsert m (pyStrip kv.1) (pyStrip kv.2)

/-- The credential parser of load_credentials applied to raw file text. -/
def parseCreds (text : List Char) : List (List Char × List Char) :=
  (splitLines text).foldl parseLine []

/-- Reference parsing algorithm, written from the specification's words:
split the input into lines; trim each line; skip the line when it is then
empty, begins with a hash mark, or contains no equals sign; otherwise split
on the first equals sign only, trim key and value, and insert with later
duplicate keys overwriting earlier ones. -/
def specParseLine (m : List (List Char × List Char)) (rawLine : List Char) :
    List (List Char × List Char) :=
  let line := pyStrip rawLine
  if line = [] || line.head? = some '#' || !(line.contains '=') then m
  else
    dictInsert m (pyStrip (line.takeWhile fun c => c != '='))
      (pyStrip ((line.dropWhile fun c => c != '=').tail))

/-- The reference algorithm over a whole text. -/
def specParse (text : List Char) : List (List Char × List Char) :=
  (splitLines text).foldl specParseLine []

/-- Join lines with newline separators. -/
def joinLines : List (List Char) → List Char
  | [] => []
  | [l] => l
  | l :: ls => l ++ '\n' :: joinLines ls

/-- Re-serialize a mapping, one key=value line per entry. -/
def serializeKV (m : List (List Char × List Char)) : List Char :=
  joinLines (m.map fun p => p.1 ++ '=' :: p.2)

/-- Permission-bit constants from the Python stat module. -/
def S_IRWXG : Nat := 0o070

/-- Permission-bit constants from the Python stat module. -/
def S_IRWXO : Nat := 0o007

/-- Permission-bit constants from the Python stat module. -/
def S_IRUSR : Nat := 0o400

/-- Permission-bit constants from the Python stat module. -/
def S_IWUSR : Nat := 0o200

/-- Embedding of CredentialManager._check_file_permissions. The file is
represented by its permission mode when it exists. Returns the resulting
on-disk mode together with the Python return value: when the mode grants
any group or other bit, chmod rewrites it to owner read-write. -/
def check_file_permissions : Option Nat → Option Nat × Bool
  | none => (none, false)
  | some mode =>
    if mode &&& (S_IRWXG ||| S_IRWXO) ≠ 0 then (some (S_IRUSR ||| S_IWUSR), true)
    else (some mode, true)

/-- One service's loaded credential mapping. -/
abbrev CredMap := List (String × String)

/-- The in-memory registry self.credentials. -/
abbrev Store := List (String × CredMap)

/-- Console and log notifications emitted by validation. -/
inductive Notification
  | errorNotLoaded (service : String)
  | errorMissing (service : String) (missing : List String)
  | warnFormat (key : String)
  | successValidated (service : String)
  | infoStripeTest
  | warnStripeLive
deriving DecidableEq

/-- The missing computation of _validate_service: required fields absent
from the mapping or mapped to a falsy (empty) value. -/
def missingFields (creds : CredMap) (required : List String) : List String :=
  required.filter fun v =>
    match dictFind creds v with
    | none => true
    | some s => s.isEmpty

/-- Embedding of CredentialManager._validate_service. Each compiled regex
is represented by a Boolean predicate; its outcome feeds only the warning
it may emit. Returns the (unchanged) registry, the Python return value and
the notifications emitted, in order. -/
def validate_service (store : Store) (service : String) (required : List String)
    (patterns : List (String × (String → Bool))) : Store × Bool × List Notification :=
  match dictFind store service with
  | none => (store, false, [Notification.errorNotLoaded service])
  | some creds =>
    if (missingFields creds required).isEmpty then
      let warns := (patterns.filter fun kp =>
          match dictFind creds kp.1 with
          | none => false
          | some s => !s.isEmpty && !kp.2 s).map
        fun kp => Notification.warnFormat kp.1
      (store, true, warns ++ [Notification.successValidated service])
    else (store, false, [Notification.errorMissing service (missingFields creds required)])

/-- Lowercase latin letter test, for the region regex. -/
def isLowerAZ (c : Char) : Bool := 'a' ≤ c && c ≤ 'z'

/-- Decimal digit test, for the region regex. -/
def isDigitC (c : Char) : Bool := '0' ≤ c && c ≤ '9'

/-- Python str.startswith on the underlying character lists. -/
def strStarts (s pre : String) : Bool := pre.data.isPrefixOf s.data

/-- Python str.endswith on the underlying character lists. -/
def strEnds (s suf : String) : Bool := suf.data.isSuffixOf s.data

/-- Anchored regex sk_(test|live)_ of validate_stripe. -/
def stripeSecretPattern (s : String) : Bool :=
  strStarts s "sk_test_" || strStarts s "sk_live_"

/-- Anchored regex pk_(test|live)_ of validate_stripe. -/
def stripePublishablePattern (s : String) : Bool :=
  strStarts s "pk_test_" || strStarts s "pk_live_"

/-- Anchored regex of validate_supabase for the project URL: the https
scheme, then anything, then the supabase host ending; start and end anchors
become a non-overlapping mandatory beginning and ending. -/
def supabaseUrlPattern (s : String) : Bool :=
  strStarts s "https://" && strEnds s ".supabase.co" && 20 ≤ s.length

/-- Anchored JWT-like key regex of validate_supabase. -/
def jwtPattern (s : String) : Bool := strStarts s "eyJ"

/-- Anchored AWS access key id regex of validate_aws. -/
def awsAccessKeyPattern (s : String) : Bool := strStarts s "AKIA"

/-- Anchored AWS region regex of validate_aws: two lowercase letters, a
dash, one or more lowercase letters, a dash, one digit, then the end. The
letter run is matched greedily, which is exact because a dash is not a
lowercase letter. -/
def awsRegionPattern (s : String) : Bool :=
  match s.data with
  | a :: b :: c :: rest =>
    isLowerAZ a && isLowerAZ b && c == '-' &&
      (match rest.dropWhile isLowerAZ with
       | ['-', d] => !(rest.takeWhile isLowerAZ).isEmpty && isDigitC d
       | _ => false)
  | _ => false

/-- Required fields of validate_supabase. -/
def supabaseRequired : List String :=
  ["SUPABASE_URL", "SUPABASE_ANON_KEY", "SUPABASE_SERVICE_ROLE_KEY"]

/-- Pattern table of validate_supabase. -/
def supabasePatterns : List (String × (String → Bool)) :=
  [("SUPABASE_URL", supabaseUrlPattern),
   ("SUPABASE_ANON_KEY", jwtPattern),
   ("SUPABASE_SERVICE_ROLE_KEY", jwtPattern)]

/-- Required fields of validate_stripe. -/
def stripeRequired : List String := ["STRIPE_SECRET_KEY", "STRIPE_PUBLISHABLE_KEY"]

/-- Pattern table of validate_stripe. -/
def stripePatterns : List (String × (String → Bool)) :=
  [("STRIPE_SECRET_KEY", stripeSecretPattern),
   ("STRIPE_PUBLISHABLE_KEY", stripePublishablePattern)]

/-- Required fields of validate_aws. -/
def awsRequired : List String :=
  ["AWS_ACCESS_KEY_ID", "AWS_SECRET_ACCESS_KEY", "AWS_REGION", "AWS_S3_BUCKET"]

/-- Pattern table of validate_aws. -/
def awsPatterns : List (String × (String → Bool)) :=
  [("AWS_ACCESS_KEY_ID", awsAccessKeyPattern), ("AWS_REGION", awsRegionPattern)]

/-- Embedding of validate_supabase. -/
def validate_supabase (store : Store) : Store × Bool × List Notification :=
  validate_service store "supabase" supabaseRequired supabasePatterns

/-- The test-versus-live classification at the end of validate_stripe; it
reads STRIPE_SECRET_KEY from os.environ, here the env argument. -/
def stripeModeNotes (env : CredMap) : List Notification :=
  match dictFind env "STRIPE_SECRET_KEY" with
  | none => []
  | some v =>
    if strStarts v "sk_test_" then [Notification.infoStripeTest]
    else if strStarts v "sk_live_" then [Notification.warnStripeLive]
    else []

/-- Embedding of validate_stripe: the generic validation runs first, then
the environment-based mode report; the generic result is returned. -/
def validate_stripe (store : Store) (env : CredMap) : Store × Bool × List Notification :=
  match validate_service store "stripe" stripeRequired stripePatterns with
  | (st, result, notes) => (st, result, notes ++ stripeModeNotes env)

/-- Embedding of validate_aws. -/
def validate_aws (store : Store) : Store × Bool × List Notification :=
  validate_service store "aws" awsRequired awsPatterns

/-- The credential file of a service as load_credentials sees it: a
permission mode, and either readable contents or a read failure (an
exception raised while opening or iterating the file). -/
structure FSFile where
  mode : Nat
  readResult : Option (List Char)

/-- Convert a parsed mapping from character lists to strings. -/
def toCredMap (m : List (List Char × List Char)) : CredMap :=
  m.map fun p => (String.mk p.1, String.mk p.2)

/-- Embedding of load_credentials. The state is the registry, os.environ
and the service's credential file (none when absent). Returns the new
registry, the new environment, the resulting file mode and the Python
return value. The permission guard runs before the read; the parsed
mapping is assigned into the registry and exported into the environment
only after the whole file has been read. -/
def load_credentials (store : Store) (env : CredMap) (file : Option FSFile)
    (service : String) : Store × CredMap × Option Nat × Bool :=
  match file with
  | none => (store, env, none, false)
  | some f =>
    let mode2 := (check_file_permissions (some f.mode)).1
    match f.readResult with
    | none => (store, env, mode2, false)
    | some text =>
      let creds := toCredMap (parseCreds text)
      let store2 := dictInsert store service creds
      let env2 := creds.foldl (fun e kv => dictInsert e kv.1 kv.2) env
      (store2, env2, mode2, true)

/-- Outcome of create_template: the truthiness of the Python return value
(the function always returns None, which is falsy), the file write it
performed as (name, contents, mode), and whether the unknown-service error
was reported. -/
structure TemplateOut where
  result : Bool
  fileWritten : Option (String × String × Nat)
  errorReported : Bool
deriving DecidableEq

/-- The hard-coded template bodies of create_template. -/
def templates : List (String × String) :=
  [("supabase", "# Supabase Credentials
# Get these from: https://app.supabase.com/project/_/settings/api

SUPABASE_URL=https://your-project.supabase.co
SUPABASE_ANON_KEY=eyJhbGc...your-anon-key
SUPABASE_SERVICE_ROLE_KEY=eyJhbGc...your-service-role-key

# Optional: Project reference for CLI
SUPABASE_PROJECT_REF=your-project-ref
"),
   ("stripe", "# Stripe Credentials
# Get these from: https://dashboard.stripe.com/test/apikeys

# Use test keys for development (sk_test_...)
STRIPE_SECRET_KEY=sk_test_...
STRIPE_PUBLISHABLE_KEY=pk_test_...

# Webhook signing secret (for webhook verification)
STRIPE_WEBHOOK_SECRET=whsec_...

# Optional: Product IDs
STRIPE_BUSINESS_SUBSCRIPTION_PRODUCT_ID=prod_...
STRIPE_BUSINESS_SUBSCRIPTION_PRICE_ID=price_...
"),
   ("aws", "# AWS Credentials
# Get these from: https://console.aws.amazon.com/iam/

AWS_ACCESS_KEY_ID=AKIA...
AWS_SECRET_ACCESS_KEY=...
AWS_REGION=us-east-1

# S3 Buckets
AWS_S3_BUCKET=socoto-main
AWS_S3_PROFILE_BUCKET=socoto-profiles
AWS_S3_BUSINESS_BUCKET=socoto-businesses
AWS_S3_POST_BUCKET=socoto-posts
AWS_S3_MESSAGE_BUCKET=socoto-messages
"),
   ("github", "# GitHub Credentials
# Get these from: https://github.com/settings/tokens

GITHUB_TOKEN=ghp_...
GITHUB_REPO_OWNER=tempandmajor
GITHUB_REPO_NAME=socoto
")]

/-- Embedding of create_template. -/
def create_template (service : String) : TemplateOut :=
  match dictFind templates service with
  | none => ⟨false, none, true⟩
  | some body =>
    ⟨false, some (service ++ ".env.template", body, S_IRUSR ||| S_IWUSR), false⟩

/-- Invariant of a parsed entry: key and value are fixed by stripping and
contain no newline, the key contains no equals sign and does not begin
with a hash mark. -/
def CanonEntry (k v : List Char) : Prop :=
  pyStrip k = k ∧ pyStrip v = v ∧ '=' ∉ k ∧ '\n' ∉ k ∧ '\n' ∉ v ∧ k.head? ≠ some '#'

/-- Invariant of a parsed mapping: every entry is canonical and keys are
pairwise distinct. -/
def CanonMap (m : List (List Char × List Char)) : Prop :=
  (∀ p ∈ m, CanonEntry p.1 p.2) ∧ (m.map Prod.fst).Nodup

/-!
Theorems. Shared lemmas come first, then one theorem per claim with its
witness where the claim theorem carries a hypothesis.
-/

/-- Validation of a service whose mapping is not in the registry reports
the not-loaded error and returns false, leaving the registry as it is. -/
theorem validate_service_not_loaded (store : Store) (service : String)
    (required : List String) (patterns : List (String × (String → Bool)))
    (h : dictFind store service = none) :
    validate_service store service required patterns =
      (store, false, [Notification.errorNotLoaded service]) := by
  unfold validate_service
  rw [h]

/-- The permission check on an existing file, with the stat masks
evaluated: any group or other bit forces the mode to 0o600. -/
theorem check_file_permissions_some (m : Nat) :
    check_file_permissions (some m) =
      if m &&& 0o077 ≠ 0 then (some 0o600, true) else (some m, true) := by
  have hmask : S_IRWXG ||| S_IRWXO = 0o077 := by decide
  have hfix : S_IRUSR ||| S_IWUSR = 0o600 := by decide
  simp only [check_file_permissions, hmask, hfix]

/-- C2: the permission check returns false exactly when the file does not
exist; on an existing file it returns true, rewriting the mode to exactly
owner read-write 0o600 whenever any group or other permission bit is set
and leaving the mode alone otherwise — it never refuses to proceed. -/
theorem c2_permission_guard (st : Option Nat) :
    (check_file_permissions st).2 = st.isSome ∧
    (∀ m, st = some m → m &&& 0o077 ≠ 0 →
      (check_file_permissions st).1 = some 0o600) ∧
    (∀ m, st = some m → m &&& 0o077 = 0 →
      (check_file_permissions st).1 = some m) := by
  cases st with
  | none =>
    exact ⟨rfl, fun m h => Option.noConfusion h, fun m h => Option.noConfusion h⟩
  | some m =>
    rw [check_file_permissions_some m]
    refine ⟨?_, ?_, ?_⟩
    · split <;> rfl
    · rintro m2 heq hne
      injection heq with heq
      subst heq
      rw [if_pos hne]
    · rintro m2 heq heq0
      injection heq with heq
      subst heq
      rw [if_neg (not_not_intro heq0)]

/-- Witness for C2 at the spec's example: a file with mode 644 is rewritten
to exactly 600 and the check returns true. -/
theorem c2_permission_guard_witness :
    (0o644 : Nat) &&& 0o077 ≠ 0 ∧
    (check_file_permissions (some 0o644)).1 = some 0o600 ∧
    (check_file_permissions (some 0o644)).2 = true :=
  ⟨by decide, (c2_permission_guard (some 0o644)).2.1 0o644 rfl (by decide),
    (c2_permission_guard (some 0o644)).1⟩

/-- C6: validating a service whose mapping is absent from the in-memory
registry returns false immediately with only the not-loaded error: no file
load, no required-field or pattern checks, and the registry is returned
unchanged. -/
theorem c6_validate_requires_loaded (store : Store) (service : String)
    (required : List String) (patterns : List (String × (String → Bool)))
    (h : dictFind store service = none) :
    validate_service store service required patterns =
      (store, false, [Notification.errorNotLoaded service]) :=
  validate_service_not_loaded store service required patterns h

/-- Witness for C6 on the empty registry. -/
theorem c6_validate_requires_loaded_witness :
    validate_service [] "stripe" stripeRequired stripePatterns =
      ([], false, [Notification.errorNotLoaded "stripe"]) :=
  c6_validate_requires_loaded [] "stripe" stripeRequired stripePatterns rfl

/-- C7: loading a service whose credential file is absent returns false
and leaves the registry (and the environment) exactly as they were, for
that service and for every other service. -/
theorem c7_load_missing_file_frame (store : Store) (env : CredMap) (service : String) :
    load_credentials store env none service = (store, env, none, false) ∧
    ∀ svc, dictFind (load_credentials store env none service).1 svc =
      dictFind store svc :=
  ⟨rfl, fun _ => rfl⟩

/-- C9: when an exception is raised while opening or reading the credential
file, load returns false and the registry is unchanged for every service;
only the permission guard's mode repair has happened. -/
theorem c9_load_read_failure_frame (store : Store) (env : CredMap) (mode : Nat)
    (service : String) :
    load_credentials store env (some ⟨mode, none⟩) service =
      (store, env, (check_file_permissions (some mode)).1, false) ∧
    ∀ svc, dictFind (load_credentials store env (some ⟨mode, none⟩) service).1 svc =
      dictFind store svc :=
  ⟨rfl, fun _ => rfl⟩

/-- C8: template generation for a service outside the known template set
reports the unknown-service error, writes no file, and its return value is
falsy. -/
theorem c8_template_unknown (service : String)
    (h : service ∉ ["supabase", "stripe", "aws", "github"]) :
    create_template service = ⟨false, none, true⟩ := by
  simp only [List.mem_cons, List.not_mem_nil, or_false, not_or] at h
  obtain ⟨h1, h2, h3, h4⟩ := h
  have hfind : dictFind templates service = none := by
    simp [dictFind, templates, List.find?, Ne.symm h1, Ne.symm h2, Ne.symm h3, Ne.symm h4]
  unfold create_template
  rw [hfind]

/-- Witness for C8 at a concrete unknown service name. -/
theorem c8_template_unknown_witness :
    create_template "vercel" = ⟨false, none, true⟩ :=
  c8_template_unknown "vercel" (by decide)

/-- C3: the missing list contains exactly the required fields that are
absent or empty, and when it is non-empty validation returns false with a
single error naming precisely those fields — no pattern check and no
success notification happens. -/
theorem c3_missing_fields_fail_fast (store : Store) (service : String)
    (required : List String) (patterns : List (String × (String → Bool)))
    (creds : CredMap) (hload : dictFind store service = some creds)
    (hne : missingFields creds required ≠ []) :
    (∀ v, v ∈ missingFields creds required ↔
      v ∈ required ∧ (dictFind creds v = none ∨ dictFind creds v = some "")) ∧
    validate_service store service required patterns =
      (store, false, [Notification.errorMissing service (missingFields creds required)]) := by
  constructor
  · intro v
    unfold missingFields
    rw [List.mem_filter]
    apply and_congr_right
    intro _
    cases h : dictFind creds v with
    | none => simp
    | some s => simp [String.isEmpty_iff]
  · have hbool : (missingFields creds required).isEmpty = false := by
      cases hmf : missingFields creds required with
      | nil => exact absurd hmf hne
      | cons a t => rfl
    simp only [validate_service, hload, hbool, Bool.false_eq_true, if_false]

/-- Witness for C3 at the spec's example: stripe with only the secret key
present reports exactly the publishable key as missing and fails. -/
theorem c3_missing_fields_fail_fast_witness :
    validate_service [("stripe", [("STRIPE_SECRET_KEY", "sk_test_abc")])] "stripe"
        stripeRequired stripePatterns =
      ([("stripe", [("STRIPE_SECRET_KEY", "sk_test_abc")])], false,
        [Notification.errorMissing "stripe" ["STRIPE_PUBLISHABLE_KEY"]]) :=
  ((c3_missing_fields_fail_fast _ "stripe" stripeRequired stripePatterns
      [("STRIPE_SECRET_KEY", "sk_test_abc")] (by decide) (by decide)).2).trans
    (by decide)

/-- C4: when every required field is present and non-empty, validation
returns true whatever the pattern outcomes are; the notifications besides
the final success are at most format warnings, and a stored non-empty
value failing its pattern does produce its format warning. -/
theorem c4_patterns_advisory (store : Store) (service : String)
    (required : List String) (patterns : List (String × (String → Bool)))
    (creds : CredMap) (hload : dictFind store service = some creds)
    (hall : ∀ v ∈ required, dictFind creds v ≠ none ∧ dictFind creds v ≠ some "") :
    (validate_service store service required patterns).2.1 = true ∧
    (validate_service store service required patterns).1 = store ∧
    (∀ note ∈ (validate_service store service required patterns).2.2,
      (∃ k, note = Notification.warnFormat k) ∨
        note = Notification.successValidated service) ∧
    (∀ k p s, (k, p) ∈ patterns → dictFind creds k = some s → s ≠ "" → p s = false →
      Notification.warnFormat k ∈ (validate_service store service required patterns).2.2) := by
  have hmiss : missingFields creds required = [] := by
    unfold missingFields
    rw [List.filter_eq_nil_iff]
    intro v hv
    obtain ⟨h1, h2⟩ := hall v hv
    cases hd : dictFind creds v with
    | none => exact absurd hd h1
    | some s =>
      simp only [String.isEmpty_iff, decide_eq_true_eq]
      intro hemp
      exact h2 (by rw [hd, hemp])
  have hval : validate_service store service required patterns =
      (store, true,
        ((patterns.filter fun kp =>
            match dictFind creds kp.1 with
            | none => false
            | some s => !s.isEmpty && !kp.2 s).map
          fun kp => Notification.warnFormat kp.1) ++
          [Notification.successValidated service]) := by
    simp only [validate_service, hload, hmiss, List.isEmpty_nil, if_true]
  rw [hval]
  refine ⟨rfl, rfl, ?_, ?_⟩
  · intro note hnote
    rcases List.mem_append.mp hnote with h | h
    · obtain ⟨kp, hkp, rfl⟩ := List.mem_map.mp h
      exact Or.inl ⟨kp.1, rfl⟩
    · rcases List.mem_cons.mp h with h1 | h1
      · exact Or.inr h1
      · exact absurd h1 (List.not_mem_nil note)
  · intro k p s hkp hlook hsne hpf
    apply List.mem_append_left
    apply List.mem_map.mpr
    refine ⟨(k, p), List.mem_filter.mpr ⟨hkp, ?_⟩, rfl⟩
    show (match dictFind creds k with
      | none => false
      | some s => !s.isEmpty && !p s) = true
    rw [hlook]
    have hse : s.isEmpty = false := by
      cases hb : s.isEmpty
      · rfl
      · exact absurd ((String.isEmpty_iff s).mp hb) hsne
    simp [hse, hpf]

/-- Witness for C4 at the spec's example: supabase with all required fields
present but a URL of the wrong scheme still validates to true. -/
theorem c4_patterns_advisory_witness :
    (validate_supabase
        [("supabase",
          [("SUPABASE_URL", "http://example.com"), ("SUPABASE_ANON_KEY", "eyJa"),
            ("SUPABASE_SERVICE_ROLE_KEY", "eyJb")])]).2.1 = true :=
  (c4_patterns_advisory _ "supabase" supabaseRequired supabasePatterns
      [("SUPABASE_URL", "http://example.com"), ("SUPABASE_ANON_KEY", "eyJa"),
        ("SUPABASE_SERVICE_ROLE_KEY", "eyJb")] (by decide) (by decide)).1

/-- C10: the stripe mode classification is computed from the process
environment alone and is appended on every call, while the call's return
value is exactly the generic validation result; in particular the
classification still appears when the stripe mapping was never loaded. -/
theorem c10_stripe_mode_from_env (store : Store) (env : CredMap) :
    (validate_stripe store env).2.1 =
      (validate_service store "stripe" stripeRequired stripePatterns).2.1 ∧
    (validate_stripe store env).2.2 =
      (validate_service store "stripe" stripeRequired stripePatterns).2.2 ++
        stripeModeNotes env ∧
    (dictFind store "stripe" = none →
      (validate_stripe store env).2.2 =
        Notification.errorNotLoaded "stripe" :: stripeModeNotes env ∧
      (validate_stripe store env).2.1 = false) := by
  have hvs : validate_stripe store env =
      ((validate_service store "stripe" stripeRequired stripePatterns).1,
        (validate_service store "stripe" stripeRequired stripePatterns).2.1,
        (validate_service store "stripe" stripeRequired stripePatterns).2.2 ++
          stripeModeNotes env) := by
    unfold validate_stripe
    obtain ⟨st, result, notes⟩ := validate_service store "stripe" stripeRequired stripePatterns
    rfl
  rw [hvs]
  refine ⟨rfl, rfl, fun hnone => ?_⟩
  rw [validate_service_not_loaded store "stripe" stripeRequired stripePatterns hnone]
  exact ⟨rfl, rfl⟩

/-- Characterization of the first-equals split: it succeeds exactly when
the line contains an equals sign, yielding the longest equals-free
initial segment and the remainder after the first equals sign. -/
theorem splitFirstEq_spec (l : List Char) :
    splitFirstEq l =
      if l.contains '=' then
        some (l.takeWhile fun c => c != '=', (l.dropWhile fun c => c != '=').tail)
      else none := by
  induction l with
  | nil => rfl
  | cons c rest ih =>
    by_cases hc : c = '='
    · subst hc
      simp [splitFirstEq, List.contains_cons]
    · have hbne : (c != '=') = true := by simp [hc]
      have hc2 : ¬('=' = c) := fun h => hc h.symm
      by_cases hr : rest.contains '='
      · simp [splitFirstEq, hc, hc2, ih, List.contains_cons, hr, hbne]
      · simp [splitFirstEq, hc, hc2, ih, List.contains_cons, hr, hbne]

/-- The per-line action of the source parser agrees with the per-line
action of the spec's reference algorithm. -/
theorem parseLine_eq_specParseLine (m : List (List Char × List Char))
    (rawLine : List Char) : parseLine m rawLine = specParseLine m rawLine := by
  simp only [parseLine, specParseLine]
  by_cases h0 : pyStrip rawLine = []
  · simp [h0]
  · by_cases hh : (pyStrip rawLine).head? = some '#'
    · simp [h0, hh]
    · rw [splitFirstEq_spec]
      by_cases hc : '=' ∈ pyStrip rawLine
      · simp [h0, hh, hc]
      · simp [h0, hh, hc]

/-- C1: on every raw text the credential parser computes exactly what the
spec's reference algorithm computes — same skipping of blank, comment and
equals-free lines, split at the first equals sign only, trimming of key
and value, and last-write-wins insertion; neither ever fails. -/
theorem c1_parser_equals_reference (text : List Char) :
    parseCreds text = specParse text := by
  unfold parseCreds specParse
  have h : parseLine = specParseLine :=
    funext fun m => funext fun l => parseLine_eq_specParseLine m l
  rw [h]

/-- Witness for C10: with stripe never loaded but a test secret key in the
environment, the call reports not-loaded then the test-mode info, and
returns false. -/
theorem c10_stripe_mode_from_env_witness :
    (validate_stripe [] [("STRIPE_SECRET_KEY", "sk_test_abc")]).2.2 =
      [Notification.errorNotLoaded "stripe", Notification.infoStripeTest] ∧
    (validate_stripe [] [("STRIPE_SECRET_KEY", "sk_test_abc")]).2.1 = false := by
  have h := (c10_stripe_mode_from_env [] [("STRIPE_SECRET_KEY", "sk_test_abc")]).2.2 rfl
  exact ⟨h.1.trans (by decide), h.2⟩

/-- The head of a dropWhile result falsifies the predicate. -/
theorem head_dropWhile_false (p : Char → Bool) (l : List Char) (c : Char)
    (hc : (l.dropWhile p).head? = some c) : p c = false := by
  induction l with
  | nil => exact absurd hc (by simp)
  | cons a t ih =>
    by_cases h : p a
    · rw [List.dropWhile_cons_of_pos h] at hc
      exact ih hc
    · rw [List.dropWhile_cons_of_neg h] at hc
      obtain rfl : a = c := by simpa using hc
      simpa using h

/-- A nonempty suffix has the same last element as the whole list. -/
theorem getLast?_of_suffix (A W : List Char) (h : A <:+ W) (hne : A ≠ []) :
    A.getLast? = W.getLast? := by
  obtain ⟨pre, rfl⟩ := h
  rw [List.getLast?_append]
  cases hA : A.getLast? with
  | none => exact absurd (List.getLast?_eq_none_iff.mp hA) hne
  | some a => rfl

/-- A list whose head falsifies the predicate is unchanged by dropWhile. -/
theorem dropWhile_eq_self_of_head (p : Char → Bool) (l : List Char)
    (h : ∀ c, l.head? = some c → p c = false) : l.dropWhile p = l := by
  cases l with
  | nil => rfl
  | cons a t => exact List.dropWhile_cons_of_neg (by simp [h a rfl])

/-- A string whose first and last characters are not whitespace is fixed
by stripping. -/
theorem pyStrip_eq_self (l : List Char)
    (h1 : ∀ c, l.head? = some c → isPySpace c = false)
    (h2 : ∀ c, l.getLast? = some c → isPySpace c = false) : pyStrip l = l := by
  unfold pyStrip
  rw [dropWhile_eq_self_of_head _ _ h1]
  rw [dropWhile_eq_self_of_head _ _ fun c hc => h2 c (by rwa [List.head?_reverse] at hc)]
  exact List.reverse_reverse l

/-- The head of a stripped string is not whitespace. -/
theorem pyStrip_head_false (l : List Char) (c : Char)
    (hc : (pyStrip l).head? = some c) : isPySpace c = false := by
  unfold pyStrip at hc
  rw [List.head?_reverse] at hc
  have hne : (l.dropWhile isPySpace).reverse.dropWhile isPySpace ≠ [] := by
    intro h
    rw [h] at hc
    exact absurd hc (by simp)
  rw [getLast?_of_suffix _ _ (List.dropWhile_suffix _) hne, List.getLast?_reverse] at hc
  exact head_dropWhile_false _ _ _ hc

/-- The last character of a stripped string is not whitespace. -/
theorem pyStrip_getLast_false (l : List Char) (c : Char)
    (hc : (pyStrip l).getLast? = some c) : isPySpace c = false := by
  unfold pyStrip at hc
  rw [List.getLast?_reverse] at hc
  exact head_dropWhile_false _ _ _ hc

/-- Stripping is idempotent. -/
theorem pyStrip_idem (l : List Char) : pyStrip (pyStrip l) = pyStrip l :=
  pyStrip_eq_self _ (pyStrip_head_false l) (pyStrip_getLast_false l)

/-- The stripped string is a sublist of the original. -/
theorem pyStrip_sublist (l : List Char) : List.Sublist (pyStrip l) l := by
  unfold pyStrip
  have h1 : List.Sublist ((l.dropWhile isPySpace).reverse.dropWhile isPySpace)
      (l.dropWhile isPySpace).reverse := List.dropWhile_sublist _
  have h2 := h1.reverse
  rw [List.reverse_reverse] at h2
  exact h2.trans (List.dropWhile_sublist _)

/-- Splitting at the first equals sign inverts concatenation when the key
part is equals-free. -/
theorem splitFirstEq_append (k v : List Char) (hk : '=' ∉ k) :
    splitFirstEq (k ++ '=' :: v) = some (k, v) := by
  induction k with
  | nil => simp [splitFirstEq]
  | cons c t ih =>
    have hc : ¬(c = '=') := fun e => hk (e ▸ List.mem_cons_self c t)
    rw [List.cons_append]
    simp only [splitFirstEq, if_neg hc]
    rw [ih fun hm => hk (List.mem_cons_of_mem c hm)]
    rfl

/-- Decomposition of a successful first-equals split. -/
theorem splitFirstEq_some_decomp (l k v : List Char)
    (h : splitFirstEq l = some (k, v)) : l = k ++ '=' :: v ∧ '=' ∉ k := by
  induction l generalizing k v with
  | nil => exact absurd h (by simp [splitFirstEq])
  | cons c t ih =>
    by_cases hc : c = '='
    · subst hc
      simp only [splitFirstEq, if_pos rfl] at h
      obtain ⟨rfl, rfl⟩ : [] = k ∧ t = v := by simpa [eq_comm] using h
      simp
    · simp only [splitFirstEq, if_neg hc] at h
      cases hst : splitFirstEq t with
      | none => rw [hst] at h; exact absurd h (by simp)
      | some q =>
        rw [hst] at h
        obtain ⟨k2, v2⟩ := q
        obtain ⟨rfl, rfl⟩ : c :: k2 = k ∧ v2 = v := by simpa [eq_comm] using h
        obtain ⟨hdec, hmem⟩ := ih k2 v2 hst
        constructor
        · rw [List.cons_append, ← hdec]
        · intro hm
          rcases List.mem_cons.mp hm with h1 | h2
          · exact hc h1.symm
          · exact hmem h2

/-- The last element of dropWhile over a list ending in a kept element. -/
theorem getLast?_dropWhile_concat (p : Char → Bool) (xs : List Char) (c : Char)
    (hc : p c = false) : ((xs ++ [c]).dropWhile p).getLast? = some c := by
  induction xs with
  | nil =>
    rw [List.nil_append, List.dropWhile_cons_of_neg (by simp [hc])]
    rfl
  | cons x t ih =>
    by_cases hx : p x
    · rw [List.cons_append, List.dropWhile_cons_of_pos hx]
      exact ih
    · rw [List.cons_append, List.dropWhile_cons_of_neg hx, ← List.cons_append,
        List.getLast?_concat]

/-- Stripping a string whose first character is not whitespace keeps that
character in front. -/
theorem pyStrip_cons_head (c : Char) (t : List Char) (hc : isPySpace c = false) :
    (pyStrip (c :: t)).head? = some c := by
  unfold pyStrip
  rw [List.dropWhile_cons_of_neg (by simp [hc]), List.head?_reverse]
  have hrev : (c :: t).reverse = t.reverse ++ [c] := by simp
  rw [hrev]
  exact getLast?_dropWhile_concat _ _ _ hc

/-- Applying the parser's line action to a serialized canonical entry is
exactly the dict assignment of that entry. -/
theorem parseLine_canonEntry (m : List (List Char × List Char)) (k v : List Char)
    (h : CanonEntry k v) : parseLine m (k ++ '=' :: v) = dictInsert m k v := by
  obtain ⟨hks, hvs, hkeq, hkn, hvn, hkh⟩ := h
  have hstrip : pyStrip (k ++ '=' :: v) = k ++ '=' :: v := by
    apply pyStrip_eq_self
    · intro c hc
      cases k with
      | nil =>
        rw [List.nil_append] at hc
        obtain rfl : '=' = c := by simpa using hc
        decide
      | cons a t =>
        rw [List.cons_append] at hc
        obtain rfl : a = c := by simpa using hc
        apply pyStrip_head_false (a :: t)
        rw [hks]
        rfl
    · intro c hc
      cases hv : v.getLast? with
      | none =>
        obtain rfl : v = [] := List.getLast?_eq_none_iff.mp hv
        rw [show k ++ '=' :: ([] : List Char) = k ++ ['='] from rfl,
          List.getLast?_concat] at hc
        obtain rfl : '=' = c := by simpa using hc
        decide
      | some d =>
        have hlast : (k ++ '=' :: v).getLast? = v.getLast? := by
          rw [show k ++ '=' :: v = (k ++ ['=']) ++ v by simp, List.getLast?_append, hv]
          rfl
        rw [hlast, hv] at hc
        obtain rfl : d = c := by simpa using hc
        apply pyStrip_getLast_false v
        rw [hvs]
        exact hv
  have hne : ¬(k ++ '=' :: v = []) := by simp
  have hhd : ¬((k ++ '=' :: v).head? = some '#') := by
    cases k with
    | nil =>
      rw [List.nil_append]
      intro hcon
      simp at hcon
    | cons a t =>
      rw [List.cons_append]
      intro hcon
      have ha : a = '#' := by simpa using hcon
      exact hkh (by simp [ha])
  simp only [parseLine, hstrip]
  rw [if_neg hne, if_neg hhd, splitFirstEq_append k v hkeq]
  show dictInsert m (pyStrip k) (pyStrip v) = dictInsert m k v
  rw [hks, hvs]

/-- splitLinesAux on newline-free input yields a single line. -/
theorem splitLinesAux_no_newline (l : List Char) :
    ∀ acc, '\n' ∉ l → splitLinesAux l acc = [acc.reverse ++ l] := by
  induction l with
  | nil =>
    intro acc _
    simp [splitLinesAux]
  | cons c t ih =>
    intro acc h
    have hc : ¬(c = '\n') := fun e => h (e ▸ List.mem_cons_self c t)
    simp only [splitLinesAux, if_neg hc]
    rw [ih (c :: acc) fun hm => h (List.mem_cons_of_mem c hm)]
    simp

/-- splitLinesAux consumes one newline-free line up to a newline. -/
theorem splitLinesAux_append (l t : List Char) :
    ∀ acc, '\n' ∉ l →
      splitLinesAux (l ++ '\n' :: t) acc = (acc.reverse ++ l) :: splitLinesAux t [] := by
  induction l with
  | nil =>
    intro acc _
    rw [List.nil_append]
    simp [splitLinesAux]
  | cons c l2 ih =>
    intro acc h
    have hc : ¬(c = '\n') := fun e => h (e ▸ List.mem_cons_self c l2)
    rw [List.cons_append]
    simp only [splitLinesAux, if_neg hc]
    rw [ih (c :: acc) fun hm => h (List.mem_cons_of_mem c hm)]
    simp

/-- Every line produced by splitLinesAux is newline-free when the
accumulator is. -/
theorem mem_splitLinesAux_no_newline (l : List Char) :
    ∀ acc x, '\n' ∉ acc → x ∈ splitLinesAux l acc → '\n' ∉ x := by
  induction l with
  | nil =>
    intro acc x hacc hx
    simp only [splitLinesAux, List.mem_singleton] at hx
    subst hx
    intro hm
    exact hacc (List.mem_reverse.mp hm)
  | cons c t ih =>
    intro acc x hacc hx
    by_cases hc : c = '\n'
    · subst hc
      simp only [splitLinesAux, if_pos rfl] at hx
      rcases List.mem_cons.mp hx with h1 | h2
      · subst h1
        intro hm
        exact hacc (List.mem_reverse.mp hm)
      · exact ih [] x (List.not_mem_nil _) h2
    · simp only [splitLinesAux, if_neg hc] at hx
      refine ih (c :: acc) x ?_ hx
      intro hm
      rcases List.mem_cons.mp hm with h1 | h2
      · exact hc h1.symm
      · exact hacc h2

/-- Splitting rejoined newline-free lines recovers them. -/
theorem splitLines_joinLines (ls : List (List Char)) (hne : ls ≠ [])
    (h : ∀ l ∈ ls, '\n' ∉ l) : splitLines (joinLines ls) = ls := by
  induction ls with
  | nil => exact absurd rfl hne
  | cons l ls2 ih =>
    cases ls2 with
    | nil =>
      show splitLinesAux (joinLines [l]) [] = [l]
      rw [show joinLines [l] = l from rfl,
        splitLinesAux_no_newline l [] (h l (List.mem_cons_self l []))]
      rfl
    | cons l2 ls3 =>
      show splitLinesAux (joinLines (l :: l2 :: ls3)) [] = l :: l2 :: ls3
      rw [show joinLines (l :: l2 :: ls3) = l ++ '\n' :: joinLines (l2 :: ls3) from rfl,
        splitLinesAux_append l _ [] (h l (List.mem_cons_self l _))]
      have hrest := ih (fun hcon => List.noConfusion hcon)
        (fun x hx => h x (List.mem_cons_of_mem l hx))
      rw [show splitLines (joinLines (l2 :: ls3)) =
        splitLinesAux (joinLines (l2 :: ls3)) [] from rfl] at hrest
      rw [hrest]
      simp

/-- Dict assignment preserves the canonical-map invariant. -/
theorem canonMap_dictInsert (m : List (List Char × List Char)) (k v : List Char)
    (hm : CanonMap m) (he : CanonEntry k v) : CanonMap (dictInsert m k v) := by
  obtain ⟨hall, hnd⟩ := hm
  unfold dictInsert
  by_cases hmem : (m.any fun p => decide (p.1 = k)) = true
  · rw [if_pos hmem]
    constructor
    · intro p hp
      obtain ⟨q, hq, hqeq⟩ := List.mem_map.mp hp
      by_cases hqk : q.1 = k
      · rw [if_pos hqk] at hqeq
        rw [← hqeq]
        exact he
      · rw [if_neg hqk] at hqeq
        rw [← hqeq]
        exact hall q hq
    · have hkeys : (m.map fun p => if p.1 = k then (k, v) else p).map Prod.fst =
          m.map Prod.fst := by
        rw [List.map_map]
        apply List.map_congr_left
        intro p _
        by_cases hqk : p.1 = k
        · simp [hqk]
        · simp [hqk]
      rw [hkeys]
      exact hnd
  · rw [if_neg hmem]
    constructor
    · intro p hp
      rcases List.mem_append.mp hp with h1 | h2
      · exact hall p h1
      · rcases List.mem_cons.mp h2 with h3 | h4
        · rw [h3]
          exact he
        · exact absurd h4 (List.not_mem_nil p)
    · rw [List.map_append]
      apply List.Nodup.append hnd (List.nodup_singleton k)
      intro a ha hb
      simp only [List.map_cons, List.map_nil, List.mem_singleton] at hb
      subst hb
      apply hmem
      rw [List.any_eq_true]
      obtain ⟨p, hp, hpk⟩ := List.mem_map.mp ha
      exact ⟨p, hp, by simp [hpk]⟩

/-- Parsing one newline-free line preserves the canonical-map invariant. -/
theorem canonMap_parseLine (m : List (List Char × List Char)) (rawLine : List Char)
    (hline : '\n' ∉ rawLine) (hm : CanonMap m) : CanonMap (parseLine m rawLine) := by
  simp only [parseLine]
  by_cases h0 : pyStrip rawLine = []
  · rw [if_pos h0]
    exact hm
  · rw [if_neg h0]
    by_cases hh : (pyStrip rawLine).head? = some '#'
    · rw [if_pos hh]
      exact hm
    · rw [if_neg hh]
      cases hsp : splitFirstEq (pyStrip rawLine) with
      | none => exact hm
      | some kv =>
        obtain ⟨k2, v2⟩ := kv
        obtain ⟨hdec, hkeq⟩ := splitFirstEq_some_decomp _ _ _ hsp
        apply canonMap_dictInsert m _ _ hm
        have hLn : '\n' ∉ pyStrip rawLine :=
          fun hx => hline (List.Sublist.mem hx (pyStrip_sublist rawLine))
        have hkn : '\n' ∉ k2 := fun hx => hLn (hdec ▸ List.mem_append_left _ hx)
        have hvn : '\n' ∉ v2 :=
          fun hx => hLn (hdec ▸ List.mem_append_right _ (List.mem_cons_of_mem _ hx))
        refine ⟨pyStrip_idem k2, pyStrip_idem v2, ?_, ?_, ?_, ?_⟩
        · intro hx
          exact hkeq (List.Sublist.mem hx (pyStrip_sublist k2))
        · intro hx
          exact hkn (List.Sublist.mem hx (pyStrip_sublist k2))
        · intro hx
          exact hvn (List.Sublist.mem hx (pyStrip_sublist v2))
        · cases k2 with
          | nil =>
            intro hcon
            simp [pyStrip] at hcon
          | cons a t2 =>
            have hha : (pyStrip rawLine).head? = some a := by
              rw [hdec, List.cons_append]
              rfl
            have hnws : isPySpace a = false := pyStrip_head_false rawLine a hha
            have hane : a ≠ '#' := fun he2 => hh (hha.trans (by rw [he2]))
            rw [pyStrip_cons_head a t2 hnws]
            intro hcon
            injection hcon with hcon
            exact hane hcon

/-- Folding the parser's line action over newline-free lines preserves the
invariant. -/
theorem canonMap_foldl (lines : List (List Char)) :
    ∀ m, (∀ l ∈ lines, '\n' ∉ l) → CanonMap m → CanonMap (lines.foldl parseLine m) := by
  induction lines with
  | nil =>
    intro m _ hm
    exact hm
  | cons l ls ih =>
    intro m hl hm
    rw [List.foldl_cons]
    exact ih _ (fun x hx => hl x (List.mem_cons_of_mem l hx))
      (canonMap_parseLine m l (hl l (List.mem_cons_self l ls)) hm)

/-- Every parse result satisfies the canonical-map invariant. -/
theorem canonMap_parseCreds (text : List Char) : CanonMap (parseCreds text) := by
  unfold parseCreds
  apply canonMap_foldl
  · intro l hl
    exact mem_splitLinesAux_no_newline text [] l (List.not_mem_nil _) hl
  · exact ⟨fun p hp => absurd hp (List.not_mem_nil p), List.nodup_nil⟩

/-- Parsing the serialized lines of canonical entries folds the dict
assignments of those entries. -/
theorem foldl_parseLine_serialized (m : List (List Char × List Char))
    (hall : ∀ p ∈ m, CanonEntry p.1 p.2) :
    ∀ acc, (m.map fun p => p.1 ++ '=' :: p.2).foldl parseLine acc =
      m.foldl (fun a p => dictInsert a p.1 p.2) acc := by
  induction m with
  | nil =>
    intro acc
    rfl
  | cons p t ih =>
    intro acc
    rw [List.map_cons, List.foldl_cons, List.foldl_cons,
      parseLine_canonEntry acc p.1 p.2 (hall p (List.mem_cons_self p t))]
    exact ih (fun q hq => hall q (List.mem_cons_of_mem p hq)) _

/-- Folding dict assignments of entries with fresh pairwise-distinct keys
appends them. -/
theorem foldl_dictInsert_fresh (m : List (List Char × List Char)) :
    ∀ acc, (m.map Prod.fst).Nodup → (∀ p ∈ m, ∀ q ∈ acc, q.1 ≠ p.1) →
      m.foldl (fun a p => dictInsert a p.1 p.2) acc = acc ++ m := by
  induction m with
  | nil =>
    intro acc _ _
    simp
  | cons p t ih =>
    intro acc hnd hdisj
    rw [List.foldl_cons]
    have hstep : dictInsert acc p.1 p.2 = acc ++ [p] := by
      unfold dictInsert
      rw [if_neg, Prod.mk.eta]
      intro hany
      rw [List.any_eq_true] at hany
      obtain ⟨q, hq, hqd⟩ := hany
      rw [decide_eq_true_eq] at hqd
      exact hdisj p (List.mem_cons_self p t) q hq hqd
    rw [List.map_cons, List.nodup_cons] at hnd
    rw [hstep, ih (acc ++ [p]) hnd.2 ?_]
    · rw [List.append_assoc]
      rfl
    · intro r hr q hq
      rcases List.mem_append.mp hq with h1 | h2
      · exact hdisj r (List.mem_cons_of_mem p hr) q h1
      · rw [List.mem_singleton] at h2
        subst h2
        intro he
        exact hnd.1 (by rw [he]; exact List.mem_map_of_mem Prod.fst hr)

/-- Parsing the serialization of a canonical mapping returns it. -/
theorem parse_serialize_canon (m : List (List Char × List Char)) (h : CanonMap m) :
    parseCreds (serializeKV m) = m := by
  obtain ⟨hall, hnd⟩ := h
  cases m with
  | nil => rfl
  | cons p t =>
    have hnl : ∀ l ∈ (p :: t).map fun q => q.1 ++ '=' :: q.2, '\n' ∉ l := by
      intro l hl
      obtain ⟨q, hq, rfl⟩ := List.mem_map.mp hl
      have hcq := hall q hq
      intro hm
      rcases List.mem_append.mp hm with h1 | h2
      · exact hcq.2.2.2.1 h1
      · rcases List.mem_cons.mp h2 with h3 | h4
        · exact absurd h3 (by decide)
        · exact hcq.2.2.2.2.1 h4
    unfold parseCreds serializeKV
    rw [splitLines_joinLines ((p :: t).map fun q => q.1 ++ '=' :: q.2) (by simp) hnl,
      foldl_parseLine_serialized (p :: t) hall [],
      foldl_dictInsert_fresh (p :: t) [] hnd
        (fun q _ r hr => absurd hr (List.not_mem_nil r))]
    rfl

/-- C5: parsing is idempotent under re-serialization — serializing a parse
result back to one key=value line per entry and parsing that text yields
the same mapping. -/
theorem c5_parse_reserialize_roundtrip (text : List Char) :
    parseCreds (serializeKV (parseCreds text)) = parseCreds text :=
  parse_serialize_canon (parseCreds text) (canonMap_parseCreds text)

end CredMgr
